import Mathlib

/-!
Verification of the polygon-sdk IBFT consensus state (`consensus/ibft/state.go`)
and the sync protocol service (`protocol/service_v1.go`) against its
natural-language specification.

Shallow embedding conventions:
* `types.Address` (20 bytes) is embedded as `Nat`; the all-zero address is `0`.
* Go `uint64` values are `Nat`s, restricted to `< 2^64` by hypotheses where it
  matters; the wrapping addition of `uint64` is made explicit with `% 2^64`.
* Go `int64` values are `Int`s restricted to the `int64` range by hypotheses;
  wrapping is made explicit with `i64wrap`.
* Go maps are embedded as association lists whose insertion replaces the value
  of an existing key in place and appends fresh keys at the end; iteration
  order issues are handled in the theorems (the results proved are
  order-independent).
* fallible operations (Go `return nil, err`, slice-bound panics) are embedded
  with `Except` / `Option`.
-/

/-- `types.Address`, a 20-byte identifier, embedded as `Nat`. -/
abbrev Address := Nat

/-- `types.ZeroAddress`, the all-zero address sentinel. -/
def ZeroAddress : Address := 0

/-- The modulus of Go `uint64` arithmetic. -/
def UINT64_MOD : Nat := 2 ^ 64

/-- `2^63`, the bound separating non-negative from negative `int64` values. -/
def INT64_BOUND : Nat := 2 ^ 63

/-- `type ValidatorSet []types.Address`. -/
abbrev ValidatorSet := List Address

namespace ValidatorSet

/-- `ValidatorSet.Index`: index of the first occurrence of `addr`, `-1` if absent
(the Go loop returns on the first match). -/
def Index (v : ValidatorSet) (addr : Address) : Int :=
  match v with
  | [] => -1
  | a :: rest =>
    if a = addr then 0
    else
      let r := Index rest addr
      if r = -1 then -1 else r + 1

/-- `ValidatorSet.Includes`: membership test via `Index != -1`. -/
def Includes (v : ValidatorSet) (addr : Address) : Bool :=
  v.Index addr != -1

/-- `ValidatorSet.Len`. -/
def Len (v : ValidatorSet) : Nat := v.length

/-- `ValidatorSet.Add`: append at the end. -/
def Add (v : ValidatorSet) (addr : Address) : ValidatorSet := v ++ [addr]

/-- `ValidatorSet.Equal`: length check followed by the index-wise comparison
loop. -/
def Equal (v vv : ValidatorSet) : Bool :=
  if v.length ≠ vv.length then false
  else (List.range v.length).all fun i =>
    decide (v.getD i ZeroAddress = vv.getD i ZeroAddress)

/-- `ValidatorSet.MinFaultyNodes`: `int(math.Ceil(float64(len(*v))/3)) - 1`.
For every feasible length `n` (far below `2^53`) the `float64` computation of
`Ceil(n/3)` is exact and equals the integer ceiling `(n+2)/3`, which is what
this embedding uses; the result type is `Int` because the Go function returns
a (possibly negative, at `n = 0`) `int`. -/
def MinFaultyNodes (v : ValidatorSet) : Int :=
  (((v.length + 2) / 3 : Nat) : Int) - 1

/-- `ValidatorSet.CalcProposer`: seed selection and modular pick.  The Go
`seed` is a `uint64`; the addition `uint64(offset) + round + 1` wraps, hence
the `% UINT64_MOD`. Go indexes `(*v)[pick]`, which requires a non-empty set;
out of domain the embedding returns `ZeroAddress` (the theorems assume
`0 < v.Len`). -/
def CalcProposer (v : ValidatorSet) (round : Nat) (lastProposer : Address) : Address :=
  let seed : Nat :=
    if lastProposer = ZeroAddress then round
    else
      let offset : Int :=
        if v.Index lastProposer ≠ -1 then v.Index lastProposer else 0
      (offset.toNat + round + 1) % UINT64_MOD
  let pick := seed % v.Len
  v.getD pick ZeroAddress

end ValidatorSet

/-- One step of the Go `Del` loop at original index `i`.  The Go code ranges
over the slice value captured at loop entry (length `n`, the backing array),
while `*v` is re-sliced in place by `append((*v)[:indx], (*v)[indx+1:]...)`.
The state is the backing array (`arr`, always of the original length) and the
current length `L` of `*v`.  When `arr[i] = addr` but `i ≥ L`, the slice
expression `(*v)[i+1:]` has low bound `i+1 > len(*v) = L` and panics (`none`).
Otherwise the deletion shifts `arr[i+1..L-1]` down one place and leaves the
tail of the backing array untouched. -/
def delStep (addr : Address) (i : Nat) :
    Option (List Address × Nat) → Option (List Address × Nat)
  | none => none
  | some (arr, L) =>
    if arr.getD i ZeroAddress = addr then
      if L ≤ i then none
      else some (arr.take i ++ (arr.drop (i + 1)).take (L - 1 - i) ++ arr.drop (L - 1), L - 1)
    else some (arr, L)

namespace ValidatorSet

/-- `ValidatorSet.Del`: the Go delete-during-range loop, embedded faithfully
(including the slice-bound panic as `none`). -/
def Del (v : ValidatorSet) (addr : Address) : Option ValidatorSet :=
  match (List.range v.length).foldl (fun st i => delStep addr i st) (some (v, v.length)) with
  | none => none
  | some (arr, L) => some (arr.take L)

end ValidatorSet

/-- Elements below an in-range index of `getD` are members. -/
theorem getD_mem_of_lt {l : List Address} {i : Nat} (h : i < l.length) (d : Address) :
    l.getD i d ∈ l := by
  induction l generalizing i with
  | nil => simp at h
  | cons a rest ih =>
    cases i with
    | zero => simp [List.getD]
    | succ j =>
      simp only [List.length_cons, Nat.succ_lt_succ_iff] at h
      simpa [List.getD] using Or.inr (ih h)

/-- The seed prescribed by the specification's words: `round` for the zero
sentinel, else `index(lastProposer) + round + 1` with offset `0` when
`lastProposer` is not in the set, computed in `uint64` arithmetic. -/
def seedSpec (v : ValidatorSet) (round : Nat) (lastProposer : Address) : Nat :=
  if lastProposer = ZeroAddress then round
  else
    ((if v.Index lastProposer = -1 then 0 else (v.Index lastProposer).toNat)
      + round + 1) % UINT64_MOD

/-- C1: `CalcProposer(round, lastProposer)` returns `set[seed mod n]` with
`seed = round` for the zero sentinel and `seed = index(lastProposer)+round+1`
otherwise (offset `0` when `lastProposer` is absent); the result is a pure
function of `(set, round, lastProposer)` and always belongs to the set; and
with four validators `1,2,3,4` and zero `lastProposer`, round 0 picks `1`,
round 1 picks `2` and round 4 picks `1`. -/
theorem calcProposer_c1 (v : ValidatorSet) (round : Nat) (lastProposer : Address)
    (hn : 0 < v.Len) :
    v.CalcProposer round lastProposer
        = v.getD (seedSpec v round lastProposer % v.Len) ZeroAddress
      ∧ v.CalcProposer round lastProposer ∈ v
      ∧ ValidatorSet.CalcProposer [1, 2, 3, 4] 0 ZeroAddress = 1
      ∧ ValidatorSet.CalcProposer [1, 2, 3, 4] 1 ZeroAddress = 2
      ∧ ValidatorSet.CalcProposer [1, 2, 3, 4] 4 ZeroAddress = 1 := by
  have hdef : v.CalcProposer round lastProposer
      = v.getD (seedSpec v round lastProposer % v.Len) ZeroAddress := by
    unfold ValidatorSet.CalcProposer seedSpec
    by_cases hz : lastProposer = ZeroAddress
    · simp [hz]
    · by_cases hi : v.Index lastProposer = -1
      · simp [hz, hi]
      · simp [hz, hi]
  refine ⟨hdef, ?_, by decide, by decide, by decide⟩
  rw [hdef]
  exact getD_mem_of_lt (Nat.mod_lt _ hn) _

/-- Witness for C1 at the four-validator set, round 0, zero last proposer. -/
theorem calcProposer_c1_witness :
    ValidatorSet.CalcProposer [1, 2, 3, 4] 0 ZeroAddress
        = ([1, 2, 3, 4] : ValidatorSet).getD
            (seedSpec [1, 2, 3, 4] 0 ZeroAddress % ValidatorSet.Len [1, 2, 3, 4]) ZeroAddress
      ∧ ValidatorSet.CalcProposer [1, 2, 3, 4] 0 ZeroAddress ∈ ([1, 2, 3, 4] : ValidatorSet)
      ∧ ValidatorSet.CalcProposer [1, 2, 3, 4] 0 ZeroAddress = 1
      ∧ ValidatorSet.CalcProposer [1, 2, 3, 4] 1 ZeroAddress = 2
      ∧ ValidatorSet.CalcProposer [1, 2, 3, 4] 4 ZeroAddress = 1 :=
  calcProposer_c1 [1, 2, 3, 4] 0 ZeroAddress (by decide)

/-- `proto.MessageReq_` message types (`Preprepare`, `Prepare`, `Commit`,
`RoundChange`). -/
inductive MsgType
  | Preprepare
  | Prepare
  | Commit
  | RoundChange
  deriving DecidableEq, Repr

/-- `proto.MessageReq`, reduced to the fields `state.go` reads: the type, the
view's round, and the sender address recovered by `FromAddr()`. -/
structure MessageReq where
  msgType : MsgType
  viewRound : Nat
  fromAddr : Address
  deriving DecidableEq, Repr

/-- Go-map insertion on an association list: replace the value of the first
occurrence of the key in place, append a fresh key at the end. -/
def mapInsert {α β : Type} [DecidableEq α] : List (α × β) → α → β → List (α × β)
  | [], k, v => [(k, v)]
  | (k', v') :: rest, k, v =>
    if k' = k then (k, v) :: rest else (k', v') :: mapInsert rest k v

/-- Go-map lookup on an association list. -/
def mapLookup {α β : Type} [DecidableEq α] : List (α × β) → α → Option β
  | [], _ => none
  | (k', v') :: rest, k => if k' = k then some v' else mapLookup rest k

/-- `currentState`, reduced to the fields the verified operations touch:
the validator set and the three message stores. -/
structure currentState where
  validators : ValidatorSet
  prepared : List (Address × MessageReq)
  committed : List (Address × MessageReq)
  roundMessages : List (Nat × List (Address × MessageReq))

namespace currentState

/-- `currentState.NumValid`: `2 * c.validators.MinFaultyNodes()`. -/
def NumValid (c : currentState) : Int :=
  2 * c.validators.MinFaultyNodes

/-- The loop body of `currentState.maxRound`, iterating over the entries of
the `roundMessages` map with accumulator `(maxRound, found)` initialised to
`(0, false)`: rounds with fewer than `num` messages are skipped, and the
accumulator is updated only when `maxRound < k`. -/
def maxRoundLoop (num : Int) :
    List (Nat × List (Address × MessageReq)) → Nat → Bool → Nat × Bool
  | [], acc, found => (acc, found)
  | (k, round) :: rest, acc, found =>
    if (round.length : Int) < num then maxRoundLoop num rest acc found
    else if acc < k then maxRoundLoop num rest k true
    else maxRoundLoop num rest acc found

/-- `currentState.maxRound`: scan `roundMessages` for the greatest round with
at least `MinFaultyNodes() + 1` messages. -/
def maxRound (c : currentState) : Nat × Bool :=
  maxRoundLoop (c.validators.MinFaultyNodes + 1) c.roundMessages 0 false

/-- `currentState.addMessage`: drop messages from non-validators, else insert
into `committed`, `prepared`, or `roundMessages[view.round]` by message type
(a `Preprepare` is stored nowhere). -/
def addMessage (c : currentState) (msg : MessageReq) : currentState :=
  let addr := msg.fromAddr
  if ¬ c.validators.Includes addr then c
  else if msg.msgType = MsgType.Commit then
    { c with committed := mapInsert c.committed addr msg }
  else if msg.msgType = MsgType.Prepare then
    { c with prepared := mapInsert c.prepared addr msg }
  else if msg.msgType = MsgType.RoundChange then
    let inner := (mapLookup c.roundMessages msg.viewRound).getD []
    { c with roundMessages :=
        mapInsert c.roundMessages msg.viewRound (mapInsert inner addr msg) }
  else c

/-- `currentState.addPrepared`: guard on the `Prepare` type, then dispatch. -/
def addPrepared (c : currentState) (msg : MessageReq) : currentState :=
  if msg.msgType ≠ MsgType.Prepare then c else c.addMessage msg

/-- `currentState.addCommitted`: guard on the `Commit` type, then dispatch. -/
def addCommitted (c : currentState) (msg : MessageReq) : currentState :=
  if msg.msgType ≠ MsgType.Commit then c else c.addMessage msg

/-- `currentState.AddRoundMessage`: guard on the `RoundChange` type, dispatch,
and return the updated state together with the size of the round's map
(`0` when the guard rejects). -/
def AddRoundMessage (c : currentState) (msg : MessageReq) : currentState × Nat :=
  if msg.msgType ≠ MsgType.RoundChange then (c, 0)
  else
    let c' := c.addMessage msg
    (c', ((mapLookup c'.roundMessages msg.viewRound).getD []).length)

/-- `currentState.numPrepared`. -/
def numPrepared (c : currentState) : Nat := c.prepared.length

/-- `currentState.numCommitted`. -/
def numCommitted (c : currentState) : Nat := c.committed.length

end currentState

/-- C5: `MinFaultyNodes` is exactly `⌈n/3⌉ − 1` (so `0` for `n = 1, 2, 3` and
`1` for `n = 4, 5, 6`), and `NumValid` is exactly `2 · MinFaultyNodes`, so the
driver's quorum threshold `NumValid() + 1` equals `2f + 1`. -/
theorem minFaultyNodes_numValid_c5 (v : ValidatorSet) (c : currentState) :
    v.MinFaultyNodes = ⌈(v.Len : ℚ) / 3⌉ - 1
      ∧ ValidatorSet.MinFaultyNodes [1] = 0
      ∧ ValidatorSet.MinFaultyNodes [1, 2] = 0
      ∧ ValidatorSet.MinFaultyNodes [1, 2, 3] = 0
      ∧ ValidatorSet.MinFaultyNodes [1, 2, 3, 4] = 1
      ∧ ValidatorSet.MinFaultyNodes [1, 2, 3, 4, 5] = 1
      ∧ ValidatorSet.MinFaultyNodes [1, 2, 3, 4, 5, 6] = 1
      ∧ c.NumValid = 2 * c.validators.MinFaultyNodes
      ∧ c.NumValid + 1 = 2 * c.validators.MinFaultyNodes + 1 := by
  refine ⟨?_, by decide, by decide, by decide, by decide, by decide, by decide, rfl, rfl⟩
  unfold ValidatorSet.MinFaultyNodes ValidatorSet.Len
  have key : ∀ n : ℕ, ⌈((n : ℚ)) / 3⌉ = (((n + 2) / 3 : Nat) : Int) := by
    intro n
    obtain ⟨m, hm⟩ : ∃ m : ℕ, (n + 2) / 3 = m := ⟨_, rfl⟩
    have hA : (n : ℚ) ≤ 3 * (m : ℚ) := by exact_mod_cast (show n ≤ 3 * m by omega)
    have hB : 3 * (m : ℚ) < (n : ℚ) + 3 := by exact_mod_cast (show 3 * m < n + 3 by omega)
    rw [hm, Int.ceil_eq_iff]
    constructor
    · rw [lt_div_iff₀ (by norm_num : (0 : ℚ) < 3)]
      push_cast
      linarith
    · rw [div_le_iff₀ (by norm_num : (0 : ℚ) < 3)]
      push_cast
      linarith
  rw [key v.length]

/-- The greatest round of `l` whose message map has at least `num` entries
(`0` when none qualifies). -/
def roundQualMax (num : Int) (l : List (Nat × List (Address × MessageReq))) : Nat :=
  l.foldr (fun p m => if num ≤ (p.2.length : Int) then max p.1 m else m) 0

/-- Characterisation of the `maxRound` scan: the accumulator ends at the
maximum of its start value and the greatest qualifying round, and `found` is
set exactly when some qualifying round strictly exceeds the running
accumulator, which with start value `acc` means a qualifying round `> acc`. -/
theorem maxRoundLoop_char (num : Int) (l : List (Nat × List (Address × MessageReq))) :
    ∀ (acc : Nat) (found : Bool),
      currentState.maxRoundLoop num l acc found
        = (max acc (roundQualMax num l),
           found || l.any fun p =>
             decide (num ≤ (p.2.length : Int)) && decide (acc < p.1)) := by
  induction l with
  | nil =>
    intro acc found
    simp [currentState.maxRoundLoop, roundQualMax]
  | cons p rest ih =>
    intro acc found
    obtain ⟨k, round⟩ := p
    by_cases hq : (round.length : Int) < num
    · rw [currentState.maxRoundLoop, if_pos hq, ih]
      have hnq : ¬ num ≤ (round.length : Int) := not_le.mpr hq
      simp [roundQualMax, hnq]
    · have hqle : num ≤ (round.length : Int) := not_lt.mp hq
      by_cases hlt : acc < k
      · rw [currentState.maxRoundLoop, if_neg hq, if_pos hlt, ih]
        simp only [Prod.mk.injEq]
        constructor
        · simp only [roundQualMax, List.foldr_cons]
          simp [hqle]
          omega
        · simp [List.any_cons, hqle, hlt]
      · rw [currentState.maxRoundLoop, if_neg hq, if_neg hlt, ih]
        simp only [Prod.mk.injEq]
        constructor
        · simp only [roundQualMax, List.foldr_cons]
          simp [hqle]
          omega
        · have hd : decide (acc < k) = false := by simpa using hlt
          simp [List.any_cons, hqle, hd]

/-- Every qualifying round is bounded by `roundQualMax`. -/
theorem roundQualMax_ge (num : Int) (l : List (Nat × List (Address × MessageReq))) :
    ∀ p ∈ l, num ≤ (p.2.length : Int) → p.1 ≤ roundQualMax num l := by
  induction l with
  | nil => intro p hp; simp at hp
  | cons q rest ih =>
    intro p hp hqual
    rcases List.mem_cons.mp hp with hp' | hp'
    · subst hp'
      simp only [roundQualMax, List.foldr_cons, if_pos hqual]
      exact Nat.le_max_left _ _
    · have := ih p hp' hqual
      simp only [roundQualMax, List.foldr_cons]
      split
      · exact le_trans this (Nat.le_max_right _ _)
      · exact this

/-- `roundQualMax` is zero or attained by a qualifying entry. -/
theorem roundQualMax_attained (num : Int) (l : List (Nat × List (Address × MessageReq))) :
    roundQualMax num l = 0
      ∨ ∃ p ∈ l, num ≤ (p.2.length : Int) ∧ p.1 = roundQualMax num l := by
  induction l with
  | nil => exact Or.inl rfl
  | cons q rest ih =>
    by_cases hq : num ≤ (q.2.length : Int)
    · have hql : roundQualMax num (q :: rest) = max q.1 (roundQualMax num rest) := by
        simp [roundQualMax, hq]
      rcases Nat.le_total (roundQualMax num rest) q.1 with hle | hle
      · right
        exact ⟨q, List.mem_cons_self _ _, hq, by omega⟩
      · rcases ih with h0 | ⟨p, hp, hpq, hpe⟩
        · right
          exact ⟨q, List.mem_cons_self _ _, hq, by omega⟩
        · right
          exact ⟨p, List.mem_cons_of_mem _ hp, hpq, by omega⟩
    · have hql : roundQualMax num (q :: rest) = roundQualMax num rest := by
        simp [roundQualMax, hq]
      rcases ih with h0 | ⟨p, hp, hpq, hpe⟩
      · exact Or.inl (by omega)
      · exact Or.inr ⟨p, List.mem_cons_of_mem _ hp, hpq, by omega⟩

/-- The concrete state refuting C4: one validator (`f + 1 = 1`) and a single
round-change message stored for round `0`. -/
def cexState_c4 : currentState :=
  { validators := [1]
    prepared := []
    committed := []
    roundMessages := [(0, [(1, ⟨MsgType.RoundChange, 0, 1⟩)])] }

/-- Counterexample to C4 as stated: round `0` holds `1 ≥ f + 1` round-change
messages, yet `maxRound` reports `found = false` (the scan only sets `found`
when `maxRound < k`, which never holds for `k = 0`). -/
theorem maxRound_c4_counterexample :
    cexState_c4.maxRound = (0, false)
      ∧ ∃ p ∈ cexState_c4.roundMessages,
          cexState_c4.validators.MinFaultyNodes + 1 ≤ (p.2.length : Int) := by
  constructor
  · rfl
  · exact ⟨(0, [(1, ⟨MsgType.RoundChange, 0, 1⟩)]), by simp [cexState_c4], by decide⟩

/-- C4 (amended): `maxRound()` reports `found = true` exactly when some
positive round holds at least `f + 1` round-change messages; in that case the
returned round is the greatest round holding at least `f + 1` messages.  A
qualifying round `0` alone never sets `found`. -/
theorem maxRound_c4_amended (c : currentState) :
    (c.maxRound.2 = true ↔
        ∃ p ∈ c.roundMessages,
          c.validators.MinFaultyNodes + 1 ≤ (p.2.length : Int) ∧ 0 < p.1)
      ∧ (c.maxRound.2 = true →
          (∃ p ∈ c.roundMessages,
              c.validators.MinFaultyNodes + 1 ≤ (p.2.length : Int)
                ∧ p.1 = c.maxRound.1)
            ∧ ∀ p ∈ c.roundMessages,
                c.validators.MinFaultyNodes + 1 ≤ (p.2.length : Int) →
                  p.1 ≤ c.maxRound.1) := by
  have hchar := maxRoundLoop_char (c.validators.MinFaultyNodes + 1) c.roundMessages 0 false
  have hmax : c.maxRound
      = (roundQualMax (c.validators.MinFaultyNodes + 1) c.roundMessages,
         c.roundMessages.any fun p =>
           decide (c.validators.MinFaultyNodes + 1 ≤ (p.2.length : Int))
             && decide (0 < p.1)) := by
    rw [currentState.maxRound, hchar]
    simp
  constructor
  · rw [hmax]
    simp [List.any_eq_true]
  · intro hfound
    constructor
    · rw [hmax] at hfound ⊢
      simp only [List.any_eq_true, Bool.and_eq_true, decide_eq_true_eq] at hfound
      obtain ⟨p0, hp0, hq0, hpos0⟩ := hfound
      rcases roundQualMax_attained (c.validators.MinFaultyNodes + 1) c.roundMessages with
        h0 | ⟨p, hp, hq, he⟩
      · have := roundQualMax_ge (c.validators.MinFaultyNodes + 1) c.roundMessages p0 hp0 hq0
        omega
      · exact ⟨p, hp, hq, he⟩
    · intro p hp hq
      rw [hmax]
      exact roundQualMax_ge (c.validators.MinFaultyNodes + 1) c.roundMessages p hp hq

/-- The concrete state witnessing the amended C4: one validator and one
round-change message stored for round `2`. -/
def wState_c4 : currentState :=
  { validators := [1]
    prepared := []
    committed := []
    roundMessages := [(2, [(1, ⟨MsgType.RoundChange, 2, 1⟩)])] }

/-- Witness for the amended C4 at `wState_c4`, whose `maxRound` is `(2, true)`. -/
theorem maxRound_c4_amended_witness :
    (wState_c4.maxRound.2 = true ↔
        ∃ p ∈ wState_c4.roundMessages,
          wState_c4.validators.MinFaultyNodes + 1 ≤ (p.2.length : Int) ∧ 0 < p.1)
      ∧ ((∃ p ∈ wState_c4.roundMessages,
            wState_c4.validators.MinFaultyNodes + 1 ≤ (p.2.length : Int)
              ∧ p.1 = wState_c4.maxRound.1)
          ∧ ∀ p ∈ wState_c4.roundMessages,
              wState_c4.validators.MinFaultyNodes + 1 ≤ (p.2.length : Int) →
                p.1 ≤ wState_c4.maxRound.1) :=
  ⟨(maxRound_c4_amended wState_c4).1,
   (maxRound_c4_amended wState_c4).2 (by decide)⟩

/-- The key list of a Go-map insertion: unchanged when the key is present,
extended by the key at the end when fresh. -/
theorem mapInsert_keys {α β : Type} [DecidableEq α] (m : List (α × β)) (k : α) (v : β) :
    (mapInsert m k v).map Prod.fst
      = if k ∈ m.map Prod.fst then m.map Prod.fst else m.map Prod.fst ++ [k] := by
  induction m with
  | nil => simp [mapInsert]
  | cons p rest ih =>
    obtain ⟨k', v'⟩ := p
    by_cases hk : k' = k
    · subst hk
      simp [mapInsert]
    · simp only [mapInsert, if_neg hk, List.map_cons]
      rw [ih]
      by_cases hmem : k ∈ rest.map Prod.fst
      · simp [hmem, Ne.symm hk]
      · simp [hmem, Ne.symm hk]

/-- Go-map insertion preserves distinctness of the keys. -/
theorem mapInsert_nodup_keys {α β : Type} [DecidableEq α] {m : List (α × β)} (k : α) (v : β)
    (h : (m.map Prod.fst).Nodup) : ((mapInsert m k v).map Prod.fst).Nodup := by
  rw [mapInsert_keys]
  split
  · exact h
  · rename_i hmem
    simp [List.nodup_append, h, hmem]

/-- Every entry of a Go-map insertion is the inserted pair or an old entry. -/
theorem mem_mapInsert {α β : Type} [DecidableEq α] {m : List (α × β)} {k : α} {v : β} :
    ∀ p ∈ mapInsert m k v, p = (k, v) ∨ p ∈ m := by
  induction m with
  | nil =>
    intro p hp
    simp [mapInsert] at hp
    exact Or.inl hp
  | cons q rest ih =>
    intro p hp
    obtain ⟨k', v'⟩ := q
    by_cases hk : k' = k
    · subst hk
      simp only [mapInsert, if_pos rfl] at hp
      rcases List.mem_cons.mp hp with h | h
      · exact Or.inl h
      · exact Or.inr (List.mem_cons_of_mem _ h)
    · simp only [mapInsert, if_neg hk] at hp
      rcases List.mem_cons.mp hp with h | h
      · exact Or.inr (by simp [h])
      · rcases ih p h with h' | h'
        · exact Or.inl h'
        · exact Or.inr (List.mem_cons_of_mem _ h')

/-- A successful Go-map lookup returns an entry of the map. -/
theorem mapLookup_mem {α β : Type} [DecidableEq α] {m : List (α × β)} {k : α} {b : β}
    (h : mapLookup m k = some b) : (k, b) ∈ m := by
  induction m with
  | nil => simp [mapLookup] at h
  | cons q rest ih =>
    obtain ⟨k', v'⟩ := q
    by_cases hk : k' = k
    · subst hk
      simp only [mapLookup, if_pos] at h
      rw [Option.some.injEq] at h
      subst h
      exact List.mem_cons_self _ _
    · simp only [mapLookup, if_neg hk] at h
      exact List.mem_cons_of_mem _ (ih h)

/-- The invariant of C6 on the three message stores: at most one entry per
sender address, and only validator senders. -/
def stateInv (c : currentState) : Prop :=
  (c.prepared.map Prod.fst).Nodup
    ∧ (∀ p ∈ c.prepared, c.validators.Includes p.1 = true)
    ∧ (c.committed.map Prod.fst).Nodup
    ∧ (∀ p ∈ c.committed, c.validators.Includes p.1 = true)
    ∧ (∀ rm ∈ c.roundMessages,
        (rm.2.map Prod.fst).Nodup ∧ ∀ p ∈ rm.2, c.validators.Includes p.1 = true)

instance stateInvDecidable (c : currentState) : Decidable (stateInv c) := by
  unfold stateInv
  infer_instance

/-- `addMessage` preserves the invariant. -/
theorem stateInv_addMessage (c : currentState) (msg : MessageReq) (hinv : stateInv c) :
    stateInv (c.addMessage msg) := by
  obtain ⟨hp1, hp2, hc1, hc2, hr⟩ := hinv
  unfold currentState.addMessage
  by_cases hin : c.validators.Includes msg.fromAddr = true
  · simp only [hin, not_true_eq_false, if_false]
    by_cases h1 : msg.msgType = MsgType.Commit
    · simp only [h1, if_pos rfl]
      refine ⟨hp1, hp2, mapInsert_nodup_keys _ _ hc1, ?_, hr⟩
      intro p hp
      rcases mem_mapInsert p hp with h | h
      · rw [h]
        exact hin
      · exact hc2 p h
    · simp only [if_neg h1]
      by_cases h2 : msg.msgType = MsgType.Prepare
      · simp only [h2, if_pos rfl]
        refine ⟨mapInsert_nodup_keys _ _ hp1, ?_, hc1, hc2, hr⟩
        intro p hp
        rcases mem_mapInsert p hp with h | h
        · rw [h]
          exact hin
        · exact hp2 p h
      · simp only [if_neg h2]
        by_cases h3 : msg.msgType = MsgType.RoundChange
        · simp only [h3, if_pos rfl]
          refine ⟨hp1, hp2, hc1, hc2, ?_⟩
          intro rm hrm
          rcases mem_mapInsert rm hrm with h | h
          · have hinner :
                (((mapLookup c.roundMessages msg.viewRound).getD []).map Prod.fst).Nodup
                  ∧ ∀ p ∈ (mapLookup c.roundMessages msg.viewRound).getD [],
                      c.validators.Includes p.1 = true := by
              cases hlk : mapLookup c.roundMessages msg.viewRound with
              | none => simp
              | some inner =>
                have := hr (msg.viewRound, inner) (mapLookup_mem hlk)
                simpa using this
            rw [h]
            refine ⟨mapInsert_nodup_keys _ _ hinner.1, ?_⟩
            intro p hp
            rcases mem_mapInsert p hp with h' | h'
            · rw [h']
              exact hin
            · exact hinner.2 p h'
          · exact hr rm h
        · simp only [if_neg h3]
          exact ⟨hp1, hp2, hc1, hc2, hr⟩
  · have hin' : ¬ (c.validators.Includes msg.fromAddr : Prop) := by simpa using hin
    simp only [if_pos hin']
    exact ⟨hp1, hp2, hc1, hc2, hr⟩

/-- Dropped non-validator senders leave `addMessage` a no-op. -/
theorem addMessage_nonvalidator (c : currentState) (msg : MessageReq)
    (h : c.validators.Includes msg.fromAddr = false) : c.addMessage msg = c := by
  unfold currentState.addMessage
  have h' : ¬ (c.validators.Includes msg.fromAddr : Prop) := by simp [h]
  simp only [if_pos h']

/-- C6: `addMessage` and its wrappers `addPrepared`, `addCommitted` and
`AddRoundMessage` preserve the invariant that `prepared`, `committed` and each
per-round map of `roundMessages` hold at most one entry per sender and no
entry for a non-validator; a message from outside the validator set leaves all
three structures unchanged. -/
theorem addMessage_inv_c6 (c : currentState) (msg : MessageReq) (hinv : stateInv c) :
    stateInv (c.addMessage msg)
      ∧ stateInv (c.addPrepared msg)
      ∧ stateInv (c.addCommitted msg)
      ∧ stateInv (c.AddRoundMessage msg).1
      ∧ (c.validators.Includes msg.fromAddr = false →
          c.addMessage msg = c
            ∧ c.addPrepared msg = c
            ∧ c.addCommitted msg = c
            ∧ (c.AddRoundMessage msg).1 = c) := by
  have hmain := stateInv_addMessage c msg hinv
  refine ⟨hmain, ?_, ?_, ?_, ?_⟩
  · unfold currentState.addPrepared
    split
    · exact hinv
    · exact hmain
  · unfold currentState.addCommitted
    split
    · exact hinv
    · exact hmain
  · unfold currentState.AddRoundMessage
    split
    · exact hinv
    · exact hmain
  · intro hnv
    have hno := addMessage_nonvalidator c msg hnv
    refine ⟨hno, ?_, ?_, ?_⟩
    · unfold currentState.addPrepared
      split
      · rfl
      · exact hno
    · unfold currentState.addCommitted
      split
      · rfl
      · exact hno
    · unfold currentState.AddRoundMessage
      split
      · rfl
      · simp [hno]

/-- Witness for C6 at a concrete two-validator state and a commit message. -/
theorem addMessage_inv_c6_witness :
    (let c : currentState :=
      { validators := [1, 2]
        prepared := [(1, ⟨MsgType.Prepare, 0, 1⟩)]
        committed := []
        roundMessages := [(1, [(2, ⟨MsgType.RoundChange, 1, 2⟩)])] }
     let msg : MessageReq := ⟨MsgType.Commit, 0, 2⟩
     stateInv (c.addMessage msg)
       ∧ stateInv (c.addPrepared msg)
       ∧ stateInv (c.addCommitted msg)
       ∧ stateInv (c.AddRoundMessage msg).1
       ∧ (c.validators.Includes msg.fromAddr = false →
           c.addMessage msg = c
             ∧ c.addPrepared msg = c
             ∧ c.addCommitted msg = c
             ∧ (c.AddRoundMessage msg).1 = c)) :=
  addMessage_inv_c6 _ _ (by decide)

/-- `Equal` is reflexive. -/
theorem equal_refl (v : ValidatorSet) : v.Equal v = true := by
  unfold ValidatorSet.Equal
  simp

/-- `Equal` is symmetric. -/
theorem equal_symm (v w : ValidatorSet) : v.Equal w = w.Equal v := by
  unfold ValidatorSet.Equal
  by_cases hlen : v.length = w.length
  · have h1 : (v.length ≠ w.length) = False := by simp [hlen]
    have h2 : (w.length ≠ v.length) = False := by simp [hlen]
    simp only [h1, h2, if_false]
    rw [hlen]
    congr 1
    funext i
    exact decide_eq_decide.mpr eq_comm
  · have h1 : (v.length ≠ w.length) = True := eq_true hlen
    have h2 : (w.length ≠ v.length) = True :=
      eq_true (show w.length ≠ v.length from fun h => hlen h.symm)
    simp only [h1, h2, if_true]

/-- Indices that never match the deleted address leave the `Del` loop state
unchanged. -/
theorem delFold_noMatch (addr : Address) (arr : List Address) (L : Nat) :
    ∀ idxs : List Nat, (∀ i ∈ idxs, arr.getD i ZeroAddress ≠ addr) →
      idxs.foldl (fun st i => delStep addr i st) (some (arr, L)) = some (arr, L) := by
  intro idxs
  induction idxs with
  | nil => intro _; rfl
  | cons i rest ih =>
    intro h
    have hi : arr.getD i ZeroAddress ≠ addr := h i (List.mem_cons_self _ _)
    simp only [List.foldl_cons, delStep, if_neg hi]
    exact ih fun j hj => h j (List.mem_cons_of_mem _ hj)

/-- `Del` after `Add` of a fresh address restores the original set: the loop
skips every original index and the final index deletes exactly the appended
element. -/
theorem del_add_roundtrip (v : ValidatorSet) (a : Address) (ha : a ∉ v) :
    (v.Add a).Del a = some v := by
  unfold ValidatorSet.Add ValidatorSet.Del
  have hlen : (v ++ [a]).length = v.length + 1 := by simp
  rw [hlen, List.range_succ, List.foldl_append]
  have hstep1 : (List.range v.length).foldl (fun st i => delStep a i st)
      (some (v ++ [a], v.length + 1)) = some (v ++ [a], v.length + 1) := by
    apply delFold_noMatch
    intro i hi
    have hilt : i < v.length := List.mem_range.mp hi
    rw [List.getD_append _ _ _ _ hilt]
    intro heq
    exact ha (heq ▸ getD_mem_of_lt hilt ZeroAddress)
  rw [hstep1]
  have hget : (v ++ [a]).getD v.length ZeroAddress = a := by
    rw [List.getD_append_right v [a] ZeroAddress v.length (le_refl _)]
    simp
  have hnotle : ¬ (v.length + 1 ≤ v.length) := by omega
  simp only [List.foldl_cons, List.foldl_nil, delStep, hget, if_pos rfl, if_neg hnotle]
  have htake : (v ++ [a]).take v.length = v := List.take_left v [a]
  have hdrop1 : (v ++ [a]).drop (v.length + 1) = [] := by
    apply List.drop_eq_nil_of_le
    simp
  have hdrop2 : (v ++ [a]).drop (v.length + 1 - 1) = [a] := by
    simp only [Nat.add_sub_cancel]
    exact List.drop_left v [a]
  have harith : v.length + 1 - 1 - v.length = 0 := by omega
  rw [harith, hdrop1, hdrop2, htake]
  simp [htake]

/-- C9: `Equal` is reflexive and symmetric, and for a fresh address `a`,
`Add(a)` followed by `Del(a)` returns (without a slice-bound panic) a set
`Equal` to the original. -/
theorem equal_add_del_c9 (v w : ValidatorSet) (a : Address) (ha : a ∉ v) :
    v.Equal v = true
      ∧ v.Equal w = w.Equal v
      ∧ (v.Add a).Del a = some v
      ∧ ∃ u, (v.Add a).Del a = some u ∧ u.Equal v = true := by
  have hrt := del_add_roundtrip v a ha
  exact ⟨equal_refl v, equal_symm v w, hrt, v, hrt, equal_refl v⟩

/-- Witness for C9 at `v = [1, 2]`, `w = [3]`, `a = 5`. -/
theorem equal_add_del_c9_witness :
    ValidatorSet.Equal [1, 2] [1, 2] = true
      ∧ ValidatorSet.Equal [1, 2] [3] = ValidatorSet.Equal [3] [1, 2]
      ∧ ValidatorSet.Del (ValidatorSet.Add [1, 2] 5) 5 = some [1, 2]
      ∧ ∃ u, ValidatorSet.Del (ValidatorSet.Add [1, 2] 5) 5 = some u
          ∧ ValidatorSet.Equal u [1, 2] = true :=
  equal_add_del_c9 [1, 2] [3] 5 (by decide)

/-- `types.Hash`, kept in its canonical `0x`-prefixed text form. -/
structure Hash where
  text : String
  deriving DecidableEq, Repr

/-- Modelled from the spec: `types.Hash.UnmarshalText` (the `types` package is
outside the verified sources) accepts exactly the canonical fixed-length hex
text of a hash, led by `0x`, and rejects everything else — in particular the
empty string. -/
def parseHash (s : String) : Option Hash :=
  if s.data.take 2 = ['0', 'x'] ∧ s.data.length = 66 then some (Hash.mk s) else none

/-- `proto.HashRequest.DecodeHashes`. Modelled from the spec: every request
string is parsed as a hash and a parse failure aborts the call with an
error. -/
def DecodeHashes : List String → Except String (List Hash)
  | [] => Except.ok []
  | s :: rest =>
    match parseHash s with
    | none => Except.error "decode hash"
    | some h =>
      match DecodeHashes rest with
      | Except.error e => Except.error e
      | Except.ok hs => Except.ok (h :: hs)

/-- `types.Header`, reduced to the fields `serviceV1` reads. -/
structure Header where
  Number : Nat
  ParentHash : Nat
  deriving DecidableEq, Repr

/-- `types.Body`, opaque to the service. -/
structure Body where
  raw : Nat
  deriving DecidableEq, Repr

/-- `types.Receipt`, opaque to the service; a `Receipts` value is a list. -/
structure Receipt where
  raw : Nat
  deriving DecidableEq, Repr

/-- The `blockchainShim` store interface consumed by `serviceV1`. -/
structure Store where
  GetHeaderByNumber : Nat → Option Header
  GetHeaderByHash : Hash → Option Header
  GetBodyByHash : Hash → Option Body
  GetReceiptsByHash : Hash → Except String (List Receipt)

/-- The canonical `MarshalRLPTo` encoders of the `types` package (outside the
verified sources); the service only invokes them, so they are parameters of
the embedding. -/
structure Codec where
  header : Header → List Nat
  body : Body → List Nat
  receipts : List Receipt → List Nat

/-- `proto.HashRequest_Type`. -/
inductive HashRequestType
  | BODIES
  | RECEIPTS
  deriving DecidableEq, Repr

/-- `proto.HashRequest` (`Hash []string`, `Type HashRequest_Type`). -/
structure HashRequest where
  hashes : List String
  rtype : HashRequestType

/-- The per-hash loop of `GetObjectsByHash`, in request order: a missing body
contributes the empty payload, a receipts lookup error aborts the whole call,
and a successful lookup contributes the encoded object. -/
def objectsLoop (enc : Codec) (store : Store) (rtype : HashRequestType) :
    List Hash → Except String (List (List Nat))
  | [] => Except.ok []
  | h :: rest =>
    match rtype with
    | HashRequestType.BODIES =>
      let data :=
        match store.GetBodyByHash h with
        | some b => enc.body b
        | none => []
      match objectsLoop enc store rtype rest with
      | Except.error e => Except.error e
      | Except.ok ds => Except.ok (data :: ds)
    | HashRequestType.RECEIPTS =>
      match store.GetReceiptsByHash h with
      | Except.error e => Except.error e
      | Except.ok raw =>
        match objectsLoop enc store rtype rest with
        | Except.error e => Except.error e
        | Except.ok ds => Except.ok (enc.receipts raw :: ds)

/-- `serviceV1.GetObjectsByHash`: decode the hashes, then walk them in order.
The response is embedded as the list of payload byte strings (each Go
`Response_Component` wraps exactly one payload). -/
def GetObjectsByHash (enc : Codec) (store : Store) (req : HashRequest) :
    Except String (List (List Nat)) :=
  match DecodeHashes req.hashes with
  | Except.error e => Except.error e
  | Except.ok hashes => objectsLoop enc store req.rtype hashes

/-- `int64` reinterpretation of a `uint64` value. -/
def i64OfU64 (n : Nat) : Int :=
  if n < INT64_BOUND then (n : Int) else (n : Int) - (UINT64_MOD : Int)

/-- Wrap-around of Go `int64` arithmetic. -/
def i64wrap (x : Int) : Int :=
  (x + (INT64_BOUND : Int)) % (UINT64_MOD : Int) - (INT64_BOUND : Int)

/-- `uint64` cast of an `int64` value. -/
def u64OfI64 (x : Int) : Nat :=
  (x % (UINT64_MOD : Int)).toNat

/-- `const maxHeadersAmount = 190`. -/
def maxHeadersAmount : Int := 190

/-- The clamping of the requested amount to `maxHeadersAmount`. -/
def clampAmount (a : Int) : Int :=
  if maxHeadersAmount < a then maxHeadersAmount else a

/-- `proto.GetHeadersRequest` (`Number, Amount, Skip int64`, `Hash string`). -/
structure GetHeadersRequest where
  number : Int
  hash : String
  amount : Int
  skip : Int

/-- The header-walking loop of `GetHeaders`: from the current `origin` the
next height is `int64(origin.Number) + skip` in `int64` arithmetic; a negative
height or a missing header stops the loop.  The fuel is the remaining
iteration budget `req.Amount - count`, which shrinks by one per appended
header. -/
def getHeadersLoop (store : Store) (skip : Int) : Header → Nat → List Header
  | _, 0 => []
  | origin, fuel + 1 =>
    let block := i64wrap (i64OfU64 origin.Number + skip)
    if block < 0 then []
    else
      match store.GetHeaderByNumber (u64OfI64 block) with
      | none => []
      | some h => h :: getHeadersLoop store skip h fuel

/-- `serviceV1.GetHeaders`: reject requests with both a number and a hash,
clamp the amount to 190, resolve the origin by number (when `≠ 0`) or else by
hash, answer an absent origin with an empty response, and walk the chain with
stride `skip + 1`. -/
def GetHeaders (enc : Codec) (store : Store) (req : GetHeadersRequest) :
    Except String (List (List Nat)) :=
  if req.number ≠ 0 ∧ req.hash ≠ "" then Except.error "cannot have both"
  else
    let amount := clampAmount req.amount
    let originRes : Except String (Option Header) :=
      if req.number ≠ 0 then Except.ok (store.GetHeaderByNumber (u64OfI64 req.number))
      else
        match parseHash req.hash with
        | none => Except.error "cannot decode hash"
        | some h => Except.ok (store.GetHeaderByHash h)
    match originRes with
    | Except.error e => Except.error e
    | Except.ok none => Except.ok []
    | Except.ok (some origin) =>
      let skip := i64wrap (req.skip + 1)
      Except.ok ((origin :: getHeadersLoop store skip origin (amount - 1).toNat).map enc.header)

/-- C7: a `GetHeaders` request carrying both a non-zero number and a non-empty
hash is rejected with the protocol error and neither lookup is fulfilled. -/
theorem getHeaders_both_c7 (enc : Codec) (store : Store) (req : GetHeadersRequest)
    (h1 : req.number ≠ 0) (h2 : req.hash ≠ "") :
    GetHeaders enc store req = Except.error "cannot have both" := by
  unfold GetHeaders
  rw [if_pos ⟨h1, h2⟩]

/-- A concrete trivial codec for the closed witnesses. -/
def trivCodec : Codec :=
  { header := fun h => [h.Number]
    body := fun b => [b.raw]
    receipts := fun rs => rs.map Receipt.raw }

/-- A concrete empty store for the closed witnesses. -/
def emptyStore : Store :=
  { GetHeaderByNumber := fun _ => none
    GetHeaderByHash := fun _ => none
    GetBodyByHash := fun _ => none
    GetReceiptsByHash := fun _ => Except.ok [] }

/-- Witness for C7 with number `5` and hash `"0xabcd"`. -/
theorem getHeaders_both_c7_witness :
    GetHeaders trivCodec emptyStore (GetHeadersRequest.mk 5 "0xabcd" 10 0)
      = Except.error "cannot have both" :=
  getHeaders_both_c7 trivCodec emptyStore _ (by decide) (by decide)

/-- C10: with `number = 0` the origin is resolved exclusively through the hash
field (never through `GetHeaderByNumber`, so the height-`0` header can never be
requested by number); a hash field that does not parse — for example the empty
string — yields an error and no headers, a parsed but absent hash an empty
response, and a parsed, present hash the hash-resolved header as the first
response object. -/
theorem getHeaders_hash_origin_c10 (enc : Codec) (store : Store) (req : GetHeadersRequest)
    (h0 : req.number = 0) :
    (parseHash req.hash = none →
        GetHeaders enc store req = Except.error "cannot decode hash")
      ∧ parseHash "" = none
      ∧ (∀ h, parseHash req.hash = some h → store.GetHeaderByHash h = none →
          GetHeaders enc store req = Except.ok [])
      ∧ (∀ h origin, parseHash req.hash = some h →
          store.GetHeaderByHash h = some origin →
          ∃ objs, GetHeaders enc store req = Except.ok objs
            ∧ objs.head? = some (enc.header origin)) := by
  have hg : ¬ (req.number ≠ 0 ∧ req.hash ≠ "") := fun hc => hc.1 h0
  refine ⟨?_, rfl, ?_, ?_⟩
  · intro hp
    simp [GetHeaders, hg, h0, hp]
  · intro h hp hnone
    simp [GetHeaders, hg, h0, hp, hnone]
  · intro h origin hp hsome
    refine ⟨(origin :: getHeadersLoop store (i64wrap (req.skip + 1)) origin
        (clampAmount req.amount - 1).toNat).map enc.header, ?_, by simp⟩
    simp [GetHeaders, hg, h0, hp, hsome]

/-- Witness for C10 at the all-empty request `number = 0`, `hash = ""`. -/
theorem getHeaders_hash_origin_c10_witness :
    (parseHash (GetHeadersRequest.hash (GetHeadersRequest.mk 0 "" 5 0)) = none →
        GetHeaders trivCodec emptyStore (GetHeadersRequest.mk 0 "" 5 0)
          = Except.error "cannot decode hash")
      ∧ parseHash "" = none
      ∧ (∀ h, parseHash (GetHeadersRequest.hash (GetHeadersRequest.mk 0 "" 5 0)) = some h →
          emptyStore.GetHeaderByHash h = none →
          GetHeaders trivCodec emptyStore (GetHeadersRequest.mk 0 "" 5 0) = Except.ok [])
      ∧ (∀ h origin, parseHash (GetHeadersRequest.hash (GetHeadersRequest.mk 0 "" 5 0)) = some h →
          emptyStore.GetHeaderByHash h = some origin →
          ∃ objs, GetHeaders trivCodec emptyStore (GetHeadersRequest.mk 0 "" 5 0) = Except.ok objs
            ∧ objs.head? = some (trivCodec.header origin)) :=
  getHeaders_hash_origin_c10 trivCodec emptyStore (GetHeadersRequest.mk 0 "" 5 0) rfl

/-- The payload the service produces for one hash: the encoded body (empty
when absent), or the encoded receipts (their lookup errors abort instead). -/
def expectedObject (enc : Codec) (store : Store) (rtype : HashRequestType) (h : Hash) :
    List Nat :=
  match rtype with
  | HashRequestType.BODIES =>
    match store.GetBodyByHash h with
    | some b => enc.body b
    | none => []
  | HashRequestType.RECEIPTS =>
    match store.GetReceiptsByHash h with
    | Except.ok raw => enc.receipts raw
    | Except.error _ => []

/-- Decoding preserves the number of requested hashes. -/
theorem decodeHashes_length (ss : List String) (hs : List Hash)
    (h : DecodeHashes ss = Except.ok hs) : hs.length = ss.length := by
  induction ss generalizing hs with
  | nil =>
    simp only [DecodeHashes, Except.ok.injEq] at h
    rw [← h]
    rfl
  | cons s rest ih =>
    unfold DecodeHashes at h
    cases hp : parseHash s with
    | none =>
      rw [hp] at h
      exact absurd h (by simp)
    | some hh =>
      rw [hp] at h
      cases hd : DecodeHashes rest with
      | error e =>
        rw [hd] at h
        exact absurd h (by simp)
      | ok hs' =>
        rw [hd] at h
        simp only [Except.ok.injEq] at h
        rw [← h]
        simp [ih hs' hd]

/-- A successful `objectsLoop` returns exactly the per-hash expected payloads
in request order. -/
theorem objectsLoop_ok (enc : Codec) (store : Store) (rtype : HashRequestType) :
    ∀ (hs : List Hash) (ds : List (List Nat)),
      objectsLoop enc store rtype hs = Except.ok ds →
      ds = hs.map (expectedObject enc store rtype) := by
  intro hs
  induction hs with
  | nil =>
    intro ds h
    simp only [objectsLoop, Except.ok.injEq] at h
    rw [← h]
    rfl
  | cons h0 rest ih =>
    intro ds h
    cases rtype with
    | BODIES =>
      simp only [objectsLoop] at h
      cases hrec : objectsLoop enc store HashRequestType.BODIES rest with
      | error e =>
        rw [hrec] at h
        exact absurd h (by simp)
      | ok ds' =>
        rw [hrec] at h
        simp only [Except.ok.injEq] at h
        rw [← h, List.map_cons, ih ds' hrec]
        rfl
    | RECEIPTS =>
      simp only [objectsLoop] at h
      cases hr : store.GetReceiptsByHash h0 with
      | error e =>
        rw [hr] at h
        exact absurd h (by simp)
      | ok raw =>
        rw [hr] at h
        cases hrec : objectsLoop enc store HashRequestType.RECEIPTS rest with
        | error e =>
          rw [hrec] at h
          exact absurd h (by simp)
        | ok ds' =>
          rw [hrec] at h
          simp only [Except.ok.injEq] at h
          rw [← h, List.map_cons, ih ds' hrec]
          simp [expectedObject, hr]

/-- C3: every `GetObjectsByHash` call that returns without error answers with
exactly one object per requested hash, in request order, the encoded object
when present and the empty byte sequence when absent. -/
theorem getObjectsByHash_c3 (enc : Codec) (store : Store) (req : HashRequest)
    (resp : List (List Nat)) (hok : GetObjectsByHash enc store req = Except.ok resp) :
    resp.length = req.hashes.length
      ∧ ∃ hs, DecodeHashes req.hashes = Except.ok hs
          ∧ resp = hs.map (expectedObject enc store req.rtype) := by
  unfold GetObjectsByHash at hok
  cases hd : DecodeHashes req.hashes with
  | error e =>
    rw [hd] at hok
    exact absurd hok (by simp)
  | ok hs =>
    rw [hd] at hok
    have hmap := objectsLoop_ok enc store req.rtype hs resp hok
    constructor
    · rw [hmap, List.length_map]
      exact decodeHashes_length _ _ hd
    · exact ⟨hs, rfl, hmap⟩

/-- A valid hash text used by the closed witnesses. -/
def hashTextA : String :=
  "0x0000000000000000000000000000000000000000000000000000000000000001"

/-- A second valid hash text used by the closed witnesses. -/
def hashTextB : String :=
  "0x0000000000000000000000000000000000000000000000000000000000000002"

/-- A store holding one body (at `hashTextA`) used by the C3 witness. -/
def wStore_c3 : Store :=
  { GetHeaderByNumber := fun _ => none
    GetHeaderByHash := fun _ => none
    GetBodyByHash := fun h => if h.text = hashTextA then some (Body.mk 7) else none
    GetReceiptsByHash := fun _ => Except.ok [] }

/-- Witness for C3: a two-hash `BODIES` request against `wStore_c3`, with one
body present and one absent. -/
theorem getObjectsByHash_c3_witness :
    ([[7], []] : List (List Nat)).length
        = (HashRequest.mk [hashTextA, hashTextB] HashRequestType.BODIES).hashes.length
      ∧ ∃ hs, DecodeHashes
            (HashRequest.mk [hashTextA, hashTextB] HashRequestType.BODIES).hashes
            = Except.ok hs
          ∧ ([[7], []] : List (List Nat))
              = hs.map (expectedObject trivCodec wStore_c3
                  (HashRequest.mk [hashTextA, hashTextB] HashRequestType.BODIES).rtype) :=
  getObjectsByHash_c3 trivCodec wStore_c3
    (HashRequest.mk [hashTextA, hashTextB] HashRequestType.BODIES) [[7], []] rfl

/-- The error of the first hash whose receipts lookup fails, if any. -/
def firstReceiptError (store : Store) : List Hash → Option String
  | [] => none
  | h :: rest =>
    match store.GetReceiptsByHash h with
    | Except.error e => some e
    | Except.ok _ => firstReceiptError store rest

/-- A `BODIES` walk never fails and yields the expected payloads. -/
theorem objectsLoop_bodies_total (enc : Codec) (store : Store) :
    ∀ hs : List Hash,
      objectsLoop enc store HashRequestType.BODIES hs
        = Except.ok (hs.map (expectedObject enc store HashRequestType.BODIES)) := by
  intro hs
  induction hs with
  | nil => rfl
  | cons h rest ih =>
    simp only [objectsLoop, ih, List.map_cons]
    rfl

/-- A `RECEIPTS` walk aborts with the first lookup error. -/
theorem objectsLoop_receipts_error (enc : Codec) (store : Store) :
    ∀ (hs : List Hash) (e : String),
      firstReceiptError store hs = some e →
      objectsLoop enc store HashRequestType.RECEIPTS hs = Except.error e := by
  intro hs
  induction hs with
  | nil =>
    intro e he
    exact absurd he (by simp [firstReceiptError])
  | cons h rest ih =>
    intro e he
    unfold firstReceiptError at he
    cases hr : store.GetReceiptsByHash h with
    | error e' =>
      rw [hr] at he
      simp only [Option.some.injEq] at he
      simp only [objectsLoop, hr, he]
    | ok raw =>
      rw [hr] at he
      simp only [objectsLoop, hr, ih e he]

/-- An erroring receipts lookup somewhere in the list yields a first error. -/
theorem firstReceiptError_of_exists (store : Store) :
    ∀ hs : List Hash,
      (∃ h ∈ hs, ∃ e, store.GetReceiptsByHash h = Except.error e) →
      ∃ e, firstReceiptError store hs = some e := by
  intro hs
  induction hs with
  | nil =>
    intro hex
    obtain ⟨h, hm, _⟩ := hex
    exact absurd hm (by simp)
  | cons h0 rest ih =>
    intro hex
    cases hr : store.GetReceiptsByHash h0 with
    | error e => exact ⟨e, by simp [firstReceiptError, hr]⟩
    | ok raw =>
      obtain ⟨h, hm, e, he⟩ := hex
      rcases List.mem_cons.mp hm with hm' | hm'
      · subst hm'
        rw [hr] at he
        exact absurd he (by simp)
      · obtain ⟨e', he'⟩ := ih ⟨h, hm', e, he⟩
        exact ⟨e', by simp [firstReceiptError, hr, he']⟩

/-- C8: error handling of `GetObjectsByHash` is asymmetric by kind — a
`BODIES` request always succeeds, missing bodies contributing empty payloads
in place, while a `RECEIPTS` request aborts with the (first) lookup error as
soon as any requested hash's receipts lookup fails, producing no partial
response. -/
theorem getObjectsByHash_err_c8 (enc : Codec) (store : Store) (ss : List String)
    (hs : List Hash) (hdec : DecodeHashes ss = Except.ok hs) :
    GetObjectsByHash enc store (HashRequest.mk ss HashRequestType.BODIES)
        = Except.ok (hs.map (expectedObject enc store HashRequestType.BODIES))
      ∧ (∀ e, firstReceiptError store hs = some e →
          GetObjectsByHash enc store (HashRequest.mk ss HashRequestType.RECEIPTS)
            = Except.error e)
      ∧ ((∃ h ∈ hs, ∃ e, store.GetReceiptsByHash h = Except.error e) →
          ∃ e, GetObjectsByHash enc store (HashRequest.mk ss HashRequestType.RECEIPTS)
            = Except.error e) := by
  refine ⟨?_, ?_, ?_⟩
  · unfold GetObjectsByHash
    rw [hdec]
    exact objectsLoop_bodies_total enc store hs
  · intro e he
    unfold GetObjectsByHash
    rw [hdec]
    exact objectsLoop_receipts_error enc store hs e he
  · intro hex
    obtain ⟨e, he⟩ := firstReceiptError_of_exists store hs hex
    refine ⟨e, ?_⟩
    unfold GetObjectsByHash
    rw [hdec]
    exact objectsLoop_receipts_error enc store hs e he

/-- A store whose receipts lookup fails at `hashTextB` and whose body store is
empty, used by the C8 witness. -/
def wStore_c8 : Store :=
  { GetHeaderByNumber := fun _ => none
    GetHeaderByHash := fun _ => none
    GetBodyByHash := fun _ => none
    GetReceiptsByHash := fun h =>
      if h.text = hashTextB then Except.error "receipts gone" else Except.ok [] }

/-- Witness for C8 at the two-hash request against `wStore_c8`. -/
theorem getObjectsByHash_err_c8_witness :
    GetObjectsByHash trivCodec wStore_c8 (HashRequest.mk [hashTextA, hashTextB] HashRequestType.BODIES)
        = Except.ok ([Hash.mk hashTextA, Hash.mk hashTextB].map
            (expectedObject trivCodec wStore_c8 HashRequestType.BODIES))
      ∧ (∀ e, firstReceiptError wStore_c8 [Hash.mk hashTextA, Hash.mk hashTextB] = some e →
          GetObjectsByHash trivCodec wStore_c8
              (HashRequest.mk [hashTextA, hashTextB] HashRequestType.RECEIPTS)
            = Except.error e)
      ∧ ((∃ h ∈ [Hash.mk hashTextA, Hash.mk hashTextB],
            ∃ e, wStore_c8.GetReceiptsByHash h = Except.error e) →
          ∃ e, GetObjectsByHash trivCodec wStore_c8
              (HashRequest.mk [hashTextA, hashTextB] HashRequestType.RECEIPTS)
            = Except.error e) :=
  getObjectsByHash_err_c8 trivCodec wStore_c8 [hashTextA, hashTextB]
    [Hash.mk hashTextA, Hash.mk hashTextB] rfl

/-- Numeral form of the `uint64` modulus. -/
theorem uint64_mod_int : (UINT64_MOD : Int) = 18446744073709551616 := by
  norm_num [UINT64_MOD]

/-- Numeral form of the `int64` sign bound. -/
theorem int64_bound_int : (INT64_BOUND : Int) = 9223372036854775808 := by
  norm_num [INT64_BOUND]

/-- `int64` wrapping is the identity on the representable range. -/
theorem i64wrap_id (x : Int) (h1 : -(INT64_BOUND : Int) ≤ x) (h2 : x < (INT64_BOUND : Int)) :
    i64wrap x = x := by
  unfold i64wrap
  rw [uint64_mod_int]
  rw [int64_bound_int] at h1 h2 ⊢
  omega

/-- `int64` wrapping of a value in the upper half of the `uint64` range. -/
theorem i64wrap_high (x : Int) (h1 : (INT64_BOUND : Int) ≤ x) (h2 : x < (UINT64_MOD : Int)) :
    i64wrap x = x - (UINT64_MOD : Int) := by
  unfold i64wrap
  rw [uint64_mod_int] at h2 ⊢
  rw [int64_bound_int] at h1 ⊢
  omega

/-- The `uint64` cast is `toNat` on the representable range. -/
theorem u64OfI64_toNat (x : Int) (h1 : 0 ≤ x) (h2 : x < (UINT64_MOD : Int)) :
    u64OfI64 x = x.toNat := by
  unfold u64OfI64
  rw [Int.emod_eq_of_lt h1 h2]

/-- The header-by-number facade contract assumed by the header-walk law: a
header returned for height `k` carries number `k`. -/
def StoreCoherent (store : Store) : Prop :=
  ∀ k h, store.GetHeaderByNumber k = some h → h.Number = k

/-- Characterisation of the `GetHeaders` walk for a positive stride: at most
`fuel` headers are returned; the `i`-th returned header (`0`-indexed, after
the origin) sits at height `origin.Number + (i+1)·skip` and was found in the
store at that height; and if the walk stops before exhausting the fuel, the
next height either falls outside the non-negative `int64` range (the computed
`int64` value would be negative) or is absent from the store. -/
theorem getHeadersLoop_char (store : Store) (hco : StoreCoherent store) (skip : Int)
    (hs1 : 1 ≤ skip) (hs2 : skip < (INT64_BOUND : Int)) :
    ∀ (fuel : Nat) (origin : Header), origin.Number < INT64_BOUND →
      (getHeadersLoop store skip origin fuel).length ≤ fuel
        ∧ (∀ i (hi : i < (getHeadersLoop store skip origin fuel).length),
            (((getHeadersLoop store skip origin fuel).get ⟨i, hi⟩).Number : Int)
                = (origin.Number : Int) + ((i : Int) + 1) * skip
              ∧ ((getHeadersLoop store skip origin fuel).get ⟨i, hi⟩).Number < INT64_BOUND
              ∧ store.GetHeaderByNumber
                  ((getHeadersLoop store skip origin fuel).get ⟨i, hi⟩).Number
                  = some ((getHeadersLoop store skip origin fuel).get ⟨i, hi⟩))
        ∧ ((getHeadersLoop store skip origin fuel).length < fuel →
            ((INT64_BOUND : Int)
                ≤ (origin.Number : Int)
                    + (((getHeadersLoop store skip origin fuel).length : Int) + 1) * skip
              ∨ ∃ m : Nat,
                  (m : Int) = (origin.Number : Int)
                      + (((getHeadersLoop store skip origin fuel).length : Int) + 1) * skip
                    ∧ store.GetHeaderByNumber m = none)) := by
  intro fuel
  induction fuel with
  | zero =>
    intro origin hN
    refine ⟨Nat.le_refl 0, ?_, ?_⟩
    · intro i hi
      exact absurd hi (by simp [getHeadersLoop])
    · intro hlt
      exact absurd hlt (by simp [getHeadersLoop])
  | succ fuel ih =>
    intro origin hN
    have hNle : (origin.Number : Int) < (INT64_BOUND : Int) := by exact_mod_cast hN
    have hN0 : (0 : Int) ≤ (origin.Number : Int) := Int.ofNat_nonneg _
    have hx1 : (1 : Int) ≤ (origin.Number : Int) + skip := by linarith
    have hBU : 2 * (INT64_BOUND : Int) = (UINT64_MOD : Int) := by
      rw [uint64_mod_int, int64_bound_int]
      norm_num
    have hxU : (origin.Number : Int) + skip < (UINT64_MOD : Int) := by linarith
    have hOfU : i64OfU64 origin.Number = (origin.Number : Int) := by
      unfold i64OfU64
      rw [if_pos hN]
    by_cases hge : (INT64_BOUND : Int) ≤ (origin.Number : Int) + skip
    · have hblk : i64wrap (i64OfU64 origin.Number + skip)
          = (origin.Number : Int) + skip - (UINT64_MOD : Int) := by
        rw [hOfU]
        exact i64wrap_high _ hge hxU
      have hneg : i64wrap (i64OfU64 origin.Number + skip) < 0 := by
        rw [hblk]
        linarith
      have heq : getHeadersLoop store skip origin (fuel + 1) = [] := by
        simp only [getHeadersLoop]
        rw [if_pos hneg]
      rw [heq]
      refine ⟨Nat.zero_le _, ?_, ?_⟩
      · intro i hi
        exact absurd hi (by simp)
      · intro _
        left
        simpa using hge
    · have hlt' : (origin.Number : Int) + skip < (INT64_BOUND : Int) := not_le.mp hge
      have hwrap : i64wrap (i64OfU64 origin.Number + skip) = (origin.Number : Int) + skip := by
        rw [hOfU]
        exact i64wrap_id _ (by linarith) hlt'
      have hnonneg : ¬ (i64wrap (i64OfU64 origin.Number + skip) < 0) := by
        rw [hwrap]
        linarith
      have hu : u64OfI64 (i64wrap (i64OfU64 origin.Number + skip))
          = ((origin.Number : Int) + skip).toNat := by
        rw [hwrap]
        exact u64OfI64_toNat _ (by linarith) hxU
      have hmx : ((((origin.Number : Int) + skip).toNat : Nat) : Int)
          = (origin.Number : Int) + skip := Int.toNat_of_nonneg (by linarith)
      cases hsome : store.GetHeaderByNumber (((origin.Number : Int) + skip).toNat) with
      | none =>
        have heq : getHeadersLoop store skip origin (fuel + 1) = [] := by
          simp only [getHeadersLoop]
          rw [if_neg hnonneg, hu, hsome]
        rw [heq]
        refine ⟨Nat.zero_le _, ?_, ?_⟩
        · intro i hi
          exact absurd hi (by simp)
        · intro _
          right
          refine ⟨((origin.Number : Int) + skip).toNat, ?_, hsome⟩
          rw [hmx]
          simp
      | some h =>
        have hnum : h.Number = (((origin.Number : Int) + skip).toNat) :=
          hco _ h hsome
        have hNh : h.Number < INT64_BOUND := by
          rw [hnum]
          have : ((((origin.Number : Int) + skip).toNat : Nat) : Int) < (INT64_BOUND : Int) := by
            rw [hmx]
            exact hlt'
          exact_mod_cast this
        have hhx : (h.Number : Int) = (origin.Number : Int) + skip := by
          rw [hnum, hmx]
        have heq : getHeadersLoop store skip origin (fuel + 1)
            = h :: getHeadersLoop store skip h fuel := by
          simp only [getHeadersLoop]
          rw [if_neg hnonneg, hu, hsome]
        obtain ⟨ihlen, ihidx, ihstop⟩ := ih h hNh
        rw [heq]
        refine ⟨?_, ?_, ?_⟩
        · simpa using Nat.succ_le_succ ihlen
        · intro i hi
          cases i with
          | zero =>
            refine ⟨?_, hNh, ?_⟩
            · simp only [List.get]
              rw [hhx]
              push_cast
              ring
            · simp only [List.get]
              rw [hnum]
              exact hsome
          | succ j =>
            have hj : j < (getHeadersLoop store skip h fuel).length := by
              simpa using hi
            obtain ⟨hidx1, hidx2, hidx3⟩ := ihidx j hj
            refine ⟨?_, by simpa using hidx2, by simpa using hidx3⟩
            simp only [List.get_cons_succ]
            rw [hidx1, hhx]
            push_cast
            ring
        · intro hlen
          have hlen' : (getHeadersLoop store skip h fuel).length < fuel := by
            simpa using hlen
          rcases ihstop hlen' with hcase | ⟨m2, hm2, hnone2⟩
          · left
            rw [hhx] at hcase
            simp only [List.length_cons]
            push_cast
            linarith [hcase]
          · right
            refine ⟨m2, ?_, hnone2⟩
            rw [hm2, hhx]
            simp only [List.length_cons]
            push_cast
            ring

/-- `INT64_BOUND` is positive (numeral fact used repeatedly below). -/
theorem int64_bound_pos : (0 : Int) < (INT64_BOUND : Int) := by
  rw [int64_bound_int]
  norm_num

/-- C2 (amended): for a by-number request (`number ≠ 0`, hash empty, `skip ≥ 0`)
over a coherent store, the amount is clamped to at most 190; the call always
succeeds, with an empty response when the origin is absent; the `i`-th returned
header (0-indexed) has number `n + i·(skip+1)`; at most `max 1 amount` headers
are returned (the origin is always included once found, even when the requested
amount is `≤ 0` — the claim's "at most amount" bound fails there); and the walk
stops early only when the next requested height's computed `int64` value would
be negative or the height is absent from the store. -/
theorem getHeaders_by_number_c2 (enc : Codec) (store : Store) (req : GetHeadersRequest)
    (hco : StoreCoherent store) (hhash : req.hash = "")
    (hnum1 : 0 < req.number) (hnum2 : req.number < (INT64_BOUND : Int))
    (hskip1 : 0 ≤ req.skip) (hskip2 : req.skip < (INT64_BOUND : Int)) :
    (store.GetHeaderByNumber req.number.toNat = none →
        GetHeaders enc store req = Except.ok [])
      ∧ clampAmount req.amount ≤ 190
      ∧ ∀ origin, store.GetHeaderByNumber req.number.toNat = some origin →
          ∃ hs : List Header,
            GetHeaders enc store req = Except.ok ((origin :: hs).map enc.header)
              ∧ (((origin :: hs).length : Int)) ≤ max 1 (clampAmount req.amount)
              ∧ (∀ i (hi : i < (origin :: hs).length),
                  (((origin :: hs).get ⟨i, hi⟩).Number : Int)
                    = req.number + (i : Int) * (req.skip + 1))
              ∧ (((origin :: hs).length : Int) < max 1 (clampAmount req.amount) →
                  ((INT64_BOUND : Int)
                      ≤ req.number + ((origin :: hs).length : Int) * (req.skip + 1)
                    ∨ ∃ m : Nat,
                        (m : Int) = req.number + ((origin :: hs).length : Int) * (req.skip + 1)
                          ∧ store.GetHeaderByNumber m = none)) := by
  have hg : ¬ (req.number ≠ 0 ∧ req.hash ≠ "") := fun hc => hc.2 hhash
  have hne : req.number ≠ 0 := ne_of_gt hnum1
  have hBpos := int64_bound_pos
  have hBU : 2 * (INT64_BOUND : Int) = (UINT64_MOD : Int) := by
    rw [uint64_mod_int, int64_bound_int]
    norm_num
  have hu0 : u64OfI64 req.number = req.number.toNat :=
    u64OfI64_toNat _ (le_of_lt hnum1) (by linarith)
  refine ⟨?_, ?_, ?_⟩
  · intro hnone
    simp [GetHeaders, hg, hne, hu0, hnone, hhash]
  · unfold clampAmount maxHeadersAmount
    split <;> omega
  · intro origin hsome
    have hnumO : origin.Number = req.number.toNat := hco _ _ hsome
    have hOint : (origin.Number : Int) = req.number := by
      rw [hnumO]
      exact Int.toNat_of_nonneg (le_of_lt hnum1)
    have hNO : origin.Number < INT64_BOUND := by
      have : (origin.Number : Int) < (INT64_BOUND : Int) := by
        rw [hOint]
        exact hnum2
      exact_mod_cast this
    have hsple : req.skip + 1 ≤ (INT64_BOUND : Int) := by linarith
    rcases lt_or_eq_of_le hsple with hsp | hsp
    · -- no wrap: the stride is `skip + 1` itself
      have hskipw : i64wrap (req.skip + 1) = req.skip + 1 :=
        i64wrap_id _ (by linarith) hsp
      obtain ⟨hlen, hidx, hstop⟩ :=
        getHeadersLoop_char store hco (req.skip + 1) (by linarith) hsp
          ((clampAmount req.amount - 1).toNat) origin hNO
      refine ⟨getHeadersLoop store (req.skip + 1) origin ((clampAmount req.amount - 1).toNat),
        ?_, ?_, ?_, ?_⟩
      · simp [GetHeaders, hg, hne, hu0, hsome, hskipw, hhash]
      · simp only [List.length_cons]
        push_cast
        clear hidx hstop
        omega
      · intro i hi
        cases i with
        | zero =>
          simp only [List.get]
          rw [hOint]
          push_cast
          ring
        | succ j =>
          have hj : j < (getHeadersLoop store (req.skip + 1) origin
              ((clampAmount req.amount - 1).toNat)).length := by
            simpa using hi
          obtain ⟨h1, _, _⟩ := hidx j hj
          simp only [List.get_cons_succ]
          rw [h1, hOint]
          push_cast
          ring
      · intro hless
        have hless' : (getHeadersLoop store (req.skip + 1) origin
            ((clampAmount req.amount - 1).toNat)).length
              < (clampAmount req.amount - 1).toNat := by
          simp only [List.length_cons] at hless
          push_cast at hless
          clear hidx hstop
          omega
        rcases hstop hless' with hcase | ⟨m, hm, hnone⟩
        · left
          rw [hOint] at hcase
          simp only [List.length_cons]
          push_cast
          linarith
        · right
          refine ⟨m, ?_, hnone⟩
          rw [hm, hOint]
          simp only [List.length_cons]
          push_cast
          ring
    · -- `skip + 1` overflows `int64` (`skip = 2^63 - 1`): the computed stride
      -- is `-2^63`, every next height is negative, only the origin is returned
      have hskipw : i64wrap (req.skip + 1) = -(INT64_BOUND : Int) := by
        rw [hsp, i64wrap_high _ (le_refl _) (by linarith)]
        linarith
      have hloopnil : ∀ (f : Nat) (o : Header), o.Number < INT64_BOUND →
          getHeadersLoop store (-(INT64_BOUND : Int)) o f = [] := by
        intro f o hNo
        cases f with
        | zero => rfl
        | succ f' =>
          have hOfU : i64OfU64 o.Number = (o.Number : Int) := by
            unfold i64OfU64
            rw [if_pos hNo]
          have hOle : (o.Number : Int) < (INT64_BOUND : Int) := by exact_mod_cast hNo
          have hO0 : (0 : Int) ≤ (o.Number : Int) := Int.ofNat_nonneg _
          have hw : i64wrap (i64OfU64 o.Number + -(INT64_BOUND : Int))
              = (o.Number : Int) - (INT64_BOUND : Int) := by
            rw [hOfU, show (o.Number : Int) + -(INT64_BOUND : Int)
                = (o.Number : Int) - (INT64_BOUND : Int) from by ring]
            exact i64wrap_id _ (by linarith) (by linarith)
          have hneg : i64wrap (i64OfU64 o.Number + -(INT64_BOUND : Int)) < 0 := by
            rw [hw]
            linarith
          simp only [getHeadersLoop]
          rw [if_pos hneg]
      refine ⟨[], ?_, ?_, ?_, ?_⟩
      · simp [GetHeaders, hg, hne, hu0, hsome, hskipw, hhash, hloopnil, hNO]
      · simp
      · intro i hi
        have hi0 : i = 0 := by
          simpa using Nat.lt_one_iff.mp (by simpa using hi)
        subst hi0
        simp only [List.get]
        rw [hOint]
        push_cast
        ring
      · intro _
        left
        simp only [List.length_cons, List.length_nil]
        push_cast
        rw [show req.skip + 1 = (INT64_BOUND : Int) from hsp]
        linarith

/-- The single-header store used by the C2 counterexample and witness. -/
def cstore_c2 : Store :=
  { GetHeaderByNumber := fun k => if k = 1 then some (Header.mk 1 0) else none
    GetHeaderByHash := fun _ => none
    GetBodyByHash := fun _ => none
    GetReceiptsByHash := fun _ => Except.ok [] }

/-- `cstore_c2` satisfies the header-by-number facade contract. -/
theorem cstore_c2_coherent : StoreCoherent cstore_c2 := by
  intro k h hk
  by_cases h1 : k = 1
  · subst h1
    have hv : cstore_c2.GetHeaderByNumber 1 = some (Header.mk 1 0) := rfl
    rw [hv] at hk
    cases hk
    rfl
  · have hv : cstore_c2.GetHeaderByNumber k = if k = 1 then some (Header.mk 1 0) else none := rfl
    rw [hv, if_neg h1] at hk
    exact absurd hk (by simp)

/-- Counterexample to C2 as stated: a request with `amount = 0` for a present
origin still returns one header (the origin is appended before the counting
loop runs), violating "at most the clamped amount of headers". -/
theorem getHeaders_c2_counterexample :
    GetHeaders trivCodec cstore_c2 (GetHeadersRequest.mk 1 "" 0 0) = Except.ok [[1]]
      ∧ (GetHeadersRequest.mk 1 "" 0 0).amount = 0
      ∧ ¬ (([[1]] : List (List Nat)).length ≤ 0) :=
  ⟨rfl, rfl, by simp⟩

/-- Witness for the amended C2 at `number = 1`, `amount = 5`, `skip = 0`
against `cstore_c2`. -/
theorem getHeaders_by_number_c2_witness :
    (cstore_c2.GetHeaderByNumber (GetHeadersRequest.mk 1 "" 5 0).number.toNat = none →
        GetHeaders trivCodec cstore_c2 (GetHeadersRequest.mk 1 "" 5 0) = Except.ok [])
      ∧ clampAmount (GetHeadersRequest.mk 1 "" 5 0).amount ≤ 190
      ∧ ∀ origin,
          cstore_c2.GetHeaderByNumber (GetHeadersRequest.mk 1 "" 5 0).number.toNat = some origin →
          ∃ hs : List Header,
            GetHeaders trivCodec cstore_c2 (GetHeadersRequest.mk 1 "" 5 0)
                = Except.ok ((origin :: hs).map trivCodec.header)
              ∧ (((origin :: hs).length : Int))
                  ≤ max 1 (clampAmount (GetHeadersRequest.mk 1 "" 5 0).amount)
              ∧ (∀ i (hi : i < (origin :: hs).length),
                  (((origin :: hs).get ⟨i, hi⟩).Number : Int)
                    = (GetHeadersRequest.mk 1 "" 5 0).number
                        + (i : Int) * ((GetHeadersRequest.mk 1 "" 5 0).skip + 1))
              ∧ (((origin :: hs).length : Int)
                    < max 1 (clampAmount (GetHeadersRequest.mk 1 "" 5 0).amount) →
                  ((INT64_BOUND : Int)
                      ≤ (GetHeadersRequest.mk 1 "" 5 0).number
                          + ((origin :: hs).length : Int)
                              * ((GetHeadersRequest.mk 1 "" 5 0).skip + 1)
                    ∨ ∃ m : Nat,
                        (m : Int) = (GetHeadersRequest.mk 1 "" 5 0).number
                            + ((origin :: hs).length : Int)
                                * ((GetHeadersRequest.mk 1 "" 5 0).skip + 1)
                          ∧ cstore_c2.GetHeaderByNumber m = none)) :=
  getHeaders_by_number_c2 trivCodec cstore_c2 (GetHeadersRequest.mk 1 "" 5 0)
    cstore_c2_coherent rfl (by norm_num)
    (by rw [int64_bound_int]; norm_num) (by norm_num)
    (by rw [int64_bound_int]; norm_num)
